import Mathlib

/-!
Verification of the fractalos renderer's camera/settings layer
(`src/main.cpp`).  The vector math and orbital camera are embedded over ℝ
(the source's `float` trigonometry is modelled by exact real arithmetic);
the mutable `RenderSettings` record is embedded over ℚ so that resets,
clamps and the auto-rotation update are executable and decidable.
-/

namespace Fractalos

/-- Shallow embedding of `struct Vec3 { float x, y, z; }`. -/
@[ext]
structure Vec3 where
  x : ℝ
  y : ℝ
  z : ℝ

/-- `sub(a,b)` from `main.cpp`: componentwise difference. -/
def sub (a b : Vec3) : Vec3 :=
  ⟨a.x - b.x, a.y - b.y, a.z - b.z⟩

/-- `cross(a,b)` from `main.cpp`. -/
def cross (a b : Vec3) : Vec3 :=
  ⟨a.y * b.z - a.z * b.y, a.z * b.x - a.x * b.z, a.x * b.y - a.y * b.x⟩

/-- Euclidean length, the `len` computed inside `normalize_vec3`. -/
noncomputable def vlen (v : Vec3) : ℝ :=
  Real.sqrt (v.x * v.x + v.y * v.y + v.z * v.z)

/-- `normalize_vec3(v)` from `main.cpp`: returns the zero vector when
`len <= 0`, otherwise divides each component by `len`. -/
noncomputable def normalize_vec3 (v : Vec3) : Vec3 :=
  if vlen v ≤ 0 then ⟨0, 0, 0⟩
  else ⟨v.x / vlen v, v.y / vlen v, v.z / vlen v⟩

/-- Dot product (not in the source, used to state orthogonality). -/
def dot (a b : Vec3) : ℝ :=
  a.x * b.x + a.y * b.y + a.z * b.z

/-- Shallow embedding of `struct RenderSettings` with its compile-time
default member initializers (`main.cpp` lines 118–142).  `float` fields are
modelled by ℚ, integer fields by ℤ. -/
structure RenderSettings where
  camDistance : ℚ := 4
  camYaw : ℚ := 0
  camPitch : ℚ := 0.4
  fov : ℚ := 1
  autoRotate : Bool := true
  rotationSpeed : ℚ := 0.2
  power : ℚ := 8
  maxIterations : ℤ := 18
  bailout : ℚ := 2
  maxSteps : ℤ := 200
  maxDist : ℚ := 25
  epsilon : ℚ := 0.001
  enableAO : Bool := true
  enableShadows : Bool := true
  colorA : ℚ × ℚ × ℚ := (0.2, 0.3, 0.6)
  colorB : ℚ × ℚ × ℚ := (0.8, 0.9, 1.0)
deriving DecidableEq

/-- The value-initialized `RenderSettings()` temporary: every field holds
its compile-time default. -/
def defaultSettings : RenderSettings := {}

/-- `settings = RenderSettings();` — the "Reset everything" button body
(`main.cpp` line 324): one whole-object assignment of the defaults. -/
def resetEverything (_s : RenderSettings) : RenderSettings :=
  defaultSettings

/-- The "Reset camera" button body (`main.cpp` lines 294–299): assigns the
defaults of `camDistance`, `camYaw`, `camPitch` and `fov` only. -/
def resetCamera (s : RenderSettings) : RenderSettings :=
  { s with camDistance := 4, camYaw := 0, camPitch := 0.4, fov := 1 }

/-- The per-frame auto-rotation step (`main.cpp` lines 275–277): when
`autoRotate` is set, `camYaw` is overwritten with `time * rotationSpeed`. -/
def frameAdvance (time : ℚ) (s : RenderSettings) : RenderSettings :=
  if s.autoRotate then { s with camYaw := time * s.rotationSpeed } else s

/-- `std::clamp(v, lo, hi)`: `lo` if `v < lo`, `hi` if `hi < v`, else `v`. -/
def stdClamp (v lo hi : ℚ) : ℚ :=
  if v < lo then lo else if hi < v then hi else v

/-- The per-frame defensive clamp (`main.cpp` lines 333–334):
`camPitch = std::clamp(camPitch, -1.5f, 1.5f)` and
`camDistance = std::max(camDistance, 0.5f)`. -/
def clampFrame (s : RenderSettings) : RenderSettings :=
  { s with camPitch := stdClamp s.camPitch (-1.5) 1.5,
           camDistance := max s.camDistance 0.5 }

/-- The fixed look-at target `{0,0,0}` (`main.cpp` line 346). -/
def target : Vec3 := ⟨0, 0, 0⟩

/-- The fixed `worldUp = {0,1,0}` (`main.cpp` line 349). -/
def worldUp : Vec3 := ⟨0, 1, 0⟩

/-- `camPos` (`main.cpp` lines 336–345): spherical-to-Cartesian position
`(d·cos p·cos y, d·sin p, d·cos p·sin y)`. -/
noncomputable def camPos (d yaw pitch : ℝ) : Vec3 :=
  ⟨d * Real.cos pitch * Real.cos yaw,
   d * Real.sin pitch,
   d * Real.cos pitch * Real.sin yaw⟩

/-- `forward = normalize_vec3(sub(target, camPos))` (`main.cpp` line 348). -/
noncomputable def forwardV (d yaw pitch : ℝ) : Vec3 :=
  normalize_vec3 (sub target (camPos d yaw pitch))

/-- `right = normalize_vec3(cross(forward, worldUp))` (`main.cpp` line 350). -/
noncomputable def rightV (d yaw pitch : ℝ) : Vec3 :=
  normalize_vec3 (cross (forwardV d yaw pitch) worldUp)

/-- `up = cross(right, forward)` (`main.cpp` line 351). -/
noncomputable def upV (d yaw pitch : ℝ) : Vec3 :=
  cross (rightV d yaw pitch) (forwardV d yaw pitch)

/-- The whole per-frame camera computation (`main.cpp` lines 333–351):
clamp the settings, then build position and basis from `camDistance`,
`camYaw`, `camPitch` alone. -/
noncomputable def settingsCamera (s : RenderSettings) : Vec3 × Vec3 × Vec3 × Vec3 :=
  let s2 := clampFrame s
  (camPos (s2.camDistance : ℝ) (s2.camYaw : ℝ) (s2.camPitch : ℝ),
   forwardV (s2.camDistance : ℝ) (s2.camYaw : ℝ) (s2.camPitch : ℝ),
   rightV (s2.camDistance : ℝ) (s2.camYaw : ℝ) (s2.camPitch : ℝ),
   upV (s2.camDistance : ℝ) (s2.camYaw : ℝ) (s2.camPitch : ℝ))

/-! Helper lemmas about the vector math. -/

theorem vlen_eq_of_sq (v : Vec3) (L : ℝ) (hL : 0 ≤ L)
    (h : v.x * v.x + v.y * v.y + v.z * v.z = L * L) : vlen v = L := by
  unfold vlen
  rw [h]
  exact Real.sqrt_mul_self hL

theorem vlen_zero_vec : vlen ⟨0, 0, 0⟩ = 0 := by
  unfold vlen
  norm_num

theorem normalize_vec3_zero : normalize_vec3 ⟨0, 0, 0⟩ = ⟨0, 0, 0⟩ := by
  unfold normalize_vec3
  rw [if_pos (le_of_eq vlen_zero_vec)]

theorem normalize_of_len (v : Vec3) (L : ℝ) (hL : 0 < L) (h : vlen v = L) :
    normalize_vec3 v = ⟨v.x / L, v.y / L, v.z / L⟩ := by
  unfold normalize_vec3
  rw [h, if_neg (not_le.mpr hL)]

/-! Closed forms for the camera basis away from the poles. -/

theorem sub_target_camPos (d yaw pitch : ℝ) :
    sub target (camPos d yaw pitch) =
      ⟨-(d * Real.cos pitch * Real.cos yaw), -(d * Real.sin pitch),
       -(d * Real.cos pitch * Real.sin yaw)⟩ := by
  unfold sub target camPos
  ext <;> dsimp <;> ring

theorem len_sub_target_camPos (d yaw pitch : ℝ) (hd : 0 ≤ d) :
    vlen (sub target (camPos d yaw pitch)) = d := by
  rw [sub_target_camPos]
  apply vlen_eq_of_sq _ _ hd
  dsimp
  have h1 := Real.sin_sq_add_cos_sq pitch
  have h2 := Real.sin_sq_add_cos_sq yaw
  linear_combination d * d * Real.cos pitch ^ 2 * h2 + d * d * h1

theorem forwardV_eq (d yaw pitch : ℝ) (hd : 0 < d) :
    forwardV d yaw pitch =
      ⟨-(Real.cos pitch * Real.cos yaw), -(Real.sin pitch),
       -(Real.cos pitch * Real.sin yaw)⟩ := by
  have hd0 : d ≠ 0 := ne_of_gt hd
  unfold forwardV
  rw [normalize_of_len _ d hd (len_sub_target_camPos d yaw pitch hd.le),
      sub_target_camPos]
  ext <;> dsimp <;> field_simp <;> ring

theorem cross_forwardV_worldUp (d yaw pitch : ℝ) (hd : 0 < d) :
    cross (forwardV d yaw pitch) worldUp =
      ⟨Real.cos pitch * Real.sin yaw, 0, -(Real.cos pitch * Real.cos yaw)⟩ := by
  rw [forwardV_eq d yaw pitch hd]
  unfold cross worldUp
  ext <;> dsimp <;> ring

theorem len_cross_forwardV_worldUp (d yaw pitch : ℝ) (hd : 0 < d) :
    vlen (cross (forwardV d yaw pitch) worldUp) = |Real.cos pitch| := by
  rw [cross_forwardV_worldUp d yaw pitch hd]
  apply vlen_eq_of_sq _ _ (abs_nonneg _)
  dsimp
  rw [abs_mul_abs_self]
  have h2 := Real.sin_sq_add_cos_sq yaw
  linear_combination Real.cos pitch ^ 2 * h2

theorem rightV_eq (d yaw pitch : ℝ) (hd : 0 < d) (hcp : Real.cos pitch ≠ 0) :
    rightV d yaw pitch =
      ⟨Real.cos pitch * Real.sin yaw / |Real.cos pitch|, 0,
       -(Real.cos pitch * Real.cos yaw) / |Real.cos pitch|⟩ := by
  unfold rightV
  rw [normalize_of_len _ _ (abs_pos.mpr hcp) (len_cross_forwardV_worldUp d yaw pitch hd),
      cross_forwardV_worldUp d yaw pitch hd]
  ext <;> simp

theorem upV_eq (d yaw pitch : ℝ) (hd : 0 < d) (hcp : Real.cos pitch ≠ 0) :
    upV d yaw pitch =
      ⟨-(Real.sin pitch * (Real.cos pitch * Real.cos yaw) / |Real.cos pitch|),
       |Real.cos pitch|,
       -(Real.sin pitch * (Real.cos pitch * Real.sin yaw) / |Real.cos pitch|)⟩ := by
  have hA : |Real.cos pitch| ≠ 0 := abs_ne_zero.mpr hcp
  have hAA : |Real.cos pitch| * |Real.cos pitch| = Real.cos pitch * Real.cos pitch :=
    abs_mul_abs_self _
  have h2 := Real.sin_sq_add_cos_sq yaw
  unfold upV
  rw [rightV_eq d yaw pitch hd hcp, forwardV_eq d yaw pitch hd]
  unfold cross
  ext <;> dsimp
  · ring
  · field_simp
    linear_combination Real.cos pitch ^ 2 * h2 - hAA + sq_abs (Real.cos pitch)
  · ring

theorem len_forwardV (d yaw pitch : ℝ) (hd : 0 < d) :
    vlen (forwardV d yaw pitch) = 1 := by
  rw [forwardV_eq d yaw pitch hd]
  apply vlen_eq_of_sq _ _ zero_le_one
  dsimp
  have h1 := Real.sin_sq_add_cos_sq pitch
  have h2 := Real.sin_sq_add_cos_sq yaw
  linear_combination Real.cos pitch ^ 2 * h2 + h1

theorem len_rightV (d yaw pitch : ℝ) (hd : 0 < d) (hcp : Real.cos pitch ≠ 0) :
    vlen (rightV d yaw pitch) = 1 := by
  have hA : |Real.cos pitch| ≠ 0 := abs_ne_zero.mpr hcp
  have hAA : |Real.cos pitch| * |Real.cos pitch| = Real.cos pitch * Real.cos pitch :=
    abs_mul_abs_self _
  have h2 := Real.sin_sq_add_cos_sq yaw
  rw [rightV_eq d yaw pitch hd hcp]
  apply vlen_eq_of_sq _ _ zero_le_one
  dsimp
  field_simp
  linear_combination Real.cos pitch ^ 2 * h2 - hAA + sq_abs (Real.cos pitch)

theorem len_upV (d yaw pitch : ℝ) (hd : 0 < d) (hcp : Real.cos pitch ≠ 0) :
    vlen (upV d yaw pitch) = 1 := by
  have hA : |Real.cos pitch| ≠ 0 := abs_ne_zero.mpr hcp
  have hAA : |Real.cos pitch| * |Real.cos pitch| = Real.cos pitch * Real.cos pitch :=
    abs_mul_abs_self _
  have h1 := Real.sin_sq_add_cos_sq pitch
  have h2 := Real.sin_sq_add_cos_sq yaw
  rw [upV_eq d yaw pitch hd hcp]
  apply vlen_eq_of_sq _ _ zero_le_one
  dsimp
  field_simp
  linear_combination Real.sin pitch ^ 2 * Real.cos pitch ^ 2 * h2 +
    Real.cos pitch ^ 2 * h1 +
    (|Real.cos pitch| ^ 2 + Real.cos pitch ^ 2 - 1) * hAA +
    (1 - |Real.cos pitch| ^ 2 - Real.cos pitch ^ 2) * sq_abs (Real.cos pitch)

theorem dot_forwardV_rightV (d yaw pitch : ℝ) (hd : 0 < d) (hcp : Real.cos pitch ≠ 0) :
    dot (forwardV d yaw pitch) (rightV d yaw pitch) = 0 := by
  rw [forwardV_eq d yaw pitch hd, rightV_eq d yaw pitch hd hcp]
  unfold dot
  dsimp
  ring

theorem dot_forwardV_upV (d yaw pitch : ℝ) (hd : 0 < d) (hcp : Real.cos pitch ≠ 0) :
    dot (forwardV d yaw pitch) (upV d yaw pitch) = 0 := by
  have hA : |Real.cos pitch| ≠ 0 := abs_ne_zero.mpr hcp
  have hAA : |Real.cos pitch| * |Real.cos pitch| = Real.cos pitch * Real.cos pitch :=
    abs_mul_abs_self _
  have h2 := Real.sin_sq_add_cos_sq yaw
  rw [forwardV_eq d yaw pitch hd, upV_eq d yaw pitch hd hcp]
  unfold dot
  dsimp
  field_simp
  linear_combination Real.cos pitch ^ 2 * Real.sin pitch * h2 - Real.sin pitch * hAA

theorem dot_rightV_upV (d yaw pitch : ℝ) (hd : 0 < d) (hcp : Real.cos pitch ≠ 0) :
    dot (rightV d yaw pitch) (upV d yaw pitch) = 0 := by
  rw [rightV_eq d yaw pitch hd hcp, upV_eq d yaw pitch hd hcp]
  unfold dot
  dsimp
  ring

theorem cross_rightV_forwardV (d yaw pitch : ℝ) :
    cross (rightV d yaw pitch) (forwardV d yaw pitch) = upV d yaw pitch :=
  rfl

theorem cross_forwardV_upV (d yaw pitch : ℝ) (hd : 0 < d) (hcp : Real.cos pitch ≠ 0) :
    cross (forwardV d yaw pitch) (upV d yaw pitch) = rightV d yaw pitch := by
  have hA : |Real.cos pitch| ≠ 0 := abs_ne_zero.mpr hcp
  have hAA : |Real.cos pitch| * |Real.cos pitch| = Real.cos pitch * Real.cos pitch :=
    abs_mul_abs_self _
  have h1 := Real.sin_sq_add_cos_sq pitch
  rw [forwardV_eq d yaw pitch hd, upV_eq d yaw pitch hd hcp, rightV_eq d yaw pitch hd hcp]
  unfold cross
  ext <;> dsimp
  · field_simp
    linear_combination Real.cos pitch * Real.sin yaw * h1 + Real.cos pitch * Real.sin yaw * hAA
  · ring
  · field_simp
    linear_combination (-(Real.cos pitch * Real.cos yaw)) * h1 - Real.cos pitch * Real.cos yaw * hAA

theorem cross_upV_rightV (d yaw pitch : ℝ) (hd : 0 < d) (hcp : Real.cos pitch ≠ 0) :
    cross (upV d yaw pitch) (rightV d yaw pitch) = forwardV d yaw pitch := by
  have hA : |Real.cos pitch| ≠ 0 := abs_ne_zero.mpr hcp
  have hAA : |Real.cos pitch| * |Real.cos pitch| = Real.cos pitch * Real.cos pitch :=
    abs_mul_abs_self _
  have h2 := Real.sin_sq_add_cos_sq yaw
  rw [upV_eq d yaw pitch hd hcp, rightV_eq d yaw pitch hd hcp, forwardV_eq d yaw pitch hd]
  unfold cross
  ext <;> dsimp
  · field_simp
    ring
  · field_simp
    linear_combination (-(Real.sin pitch * |Real.cos pitch| ^ 2 * Real.cos pitch ^ 2)) * h2 +
      Real.sin pitch * |Real.cos pitch| ^ 2 * hAA +
      (Real.sin pitch * Real.cos pitch ^ 2 * (Real.sin yaw ^ 2 + Real.cos yaw ^ 2) -
        Real.sin pitch * (|Real.cos pitch| ^ 2 + Real.cos pitch ^ 2)) * sq_abs (Real.cos pitch)
  · field_simp

/-! The degenerate vertical-pole case: `cos pitch = 0`. -/

theorem forwardV_pole (d yaw pitch : ℝ) (hd : 0 < d) (hcp : Real.cos pitch = 0) :
    forwardV d yaw pitch = ⟨0, -(Real.sin pitch), 0⟩ := by
  rw [forwardV_eq d yaw pitch hd]
  ext <;> dsimp <;> simp [hcp]

theorem cross_forwardV_worldUp_pole (d yaw pitch : ℝ) (hd : 0 < d)
    (hcp : Real.cos pitch = 0) :
    cross (forwardV d yaw pitch) worldUp = ⟨0, 0, 0⟩ := by
  rw [cross_forwardV_worldUp d yaw pitch hd]
  ext <;> dsimp <;> simp [hcp]

theorem rightV_pole (d yaw pitch : ℝ) (hd : 0 < d) (hcp : Real.cos pitch = 0) :
    rightV d yaw pitch = ⟨0, 0, 0⟩ := by
  unfold rightV
  rw [cross_forwardV_worldUp_pole d yaw pitch hd hcp, normalize_vec3_zero]

theorem upV_pole (d yaw pitch : ℝ) (hd : 0 < d) (hcp : Real.cos pitch = 0) :
    upV d yaw pitch = ⟨0, 0, 0⟩ := by
  unfold upV
  rw [rightV_pole d yaw pitch hd hcp]
  unfold cross
  ext <;> dsimp <;> ring

/-! Helper lemmas about the frame operations. -/

theorem frameAdvance_autoRotate (t : ℚ) (s : RenderSettings) :
    (frameAdvance t s).autoRotate = s.autoRotate := by
  unfold frameAdvance
  split <;> rfl

theorem frameAdvance_rotationSpeed (t : ℚ) (s : RenderSettings) :
    (frameAdvance t s).rotationSpeed = s.rotationSpeed := by
  unfold frameAdvance
  split <;> rfl

theorem foldl_frameAdvance_autoRotate (ts : List ℚ) (s : RenderSettings) :
    (ts.foldl (fun cur t0 => frameAdvance t0 cur) s).autoRotate = s.autoRotate := by
  induction ts generalizing s with
  | nil => rfl
  | cons t ts ih => rw [List.foldl_cons, ih, frameAdvance_autoRotate]

theorem foldl_frameAdvance_rotationSpeed (ts : List ℚ) (s : RenderSettings) :
    (ts.foldl (fun cur t0 => frameAdvance t0 cur) s).rotationSpeed = s.rotationSpeed := by
  induction ts generalizing s with
  | nil => rfl
  | cons t ts ih => rw [List.foldl_cons, ih, frameAdvance_rotationSpeed]

theorem stdClamp_idem (v lo hi : ℚ) (h : lo ≤ hi) :
    stdClamp (stdClamp v lo hi) lo hi = stdClamp v lo hi := by
  unfold stdClamp
  split_ifs <;> first | rfl | linarith

theorem max_half_idem (d : ℚ) : max (max d 0.5) 0.5 = max d 0.5 := by
  rw [max_assoc, max_self]

theorem clampFrame_idem (s : RenderSettings) :
    clampFrame (clampFrame s) = clampFrame s := by
  unfold clampFrame
  simp only [stdClamp_idem _ _ _ (by norm_num : (-1.5 : ℚ) ≤ 1.5), max_half_idem]

/-- C2: "Reset everything" replaces the whole settings object with the
value-initialized defaults in one assignment, so afterwards the settings
equal the default snapshot (camDistance=4, camYaw=0, camPitch=0.4, fov=1,
autoRotate=true, rotationSpeed=0.2, power=8, maxIterations=18, bailout=2,
maxSteps=200, maxDist=25, epsilon=0.001, enableAO=true, enableShadows=true,
colorA=(0.2,0.3,0.6), colorB=(0.8,0.9,1.0)), regardless of prior mutation. -/
theorem reset_everything_restores_default_snapshot (s : RenderSettings) :
    resetEverything s = defaultSettings ∧
    defaultSettings =
      { camDistance := 4, camYaw := 0, camPitch := 0.4, fov := 1,
        autoRotate := true, rotationSpeed := 0.2, power := 8,
        maxIterations := 18, bailout := 2, maxSteps := 200, maxDist := 25,
        epsilon := 0.001, enableAO := true, enableShadows := true,
        colorA := (0.2, 0.3, 0.6), colorB := (0.8, 0.9, 1.0) } :=
  ⟨rfl, rfl⟩

/-- C3 counterexample: "Reset camera" does NOT restore the whole camera
subgroup — starting from defaults with `autoRotate := false` and
`rotationSpeed := 1`, after `resetCamera` those two camera-group fields
still hold `false` and `1`, while their defaults are `true` and `0.2`. -/
theorem reset_camera_counterexample :
    (resetCamera { defaultSettings with autoRotate := false, rotationSpeed := 1 }).autoRotate = false ∧
    (resetCamera { defaultSettings with autoRotate := false, rotationSpeed := 1 }).rotationSpeed = 1 ∧
    defaultSettings.autoRotate = true ∧
    defaultSettings.rotationSpeed = 0.2 :=
  ⟨rfl, rfl, rfl, rfl⟩

/-- C3 (amended): "Reset camera" restores `camDistance`, `camYaw`,
`camPitch` and `fov` to their defaults and leaves every other field —
including the camera-group fields `autoRotate` and `rotationSpeed` —
unchanged. -/
theorem reset_camera_resets_four_fields_only (s : RenderSettings) :
    (resetCamera s).camDistance = defaultSettings.camDistance ∧
    (resetCamera s).camYaw = defaultSettings.camYaw ∧
    (resetCamera s).camPitch = defaultSettings.camPitch ∧
    (resetCamera s).fov = defaultSettings.fov ∧
    (resetCamera s).autoRotate = s.autoRotate ∧
    (resetCamera s).rotationSpeed = s.rotationSpeed ∧
    (resetCamera s).power = s.power ∧
    (resetCamera s).maxIterations = s.maxIterations ∧
    (resetCamera s).bailout = s.bailout ∧
    (resetCamera s).maxSteps = s.maxSteps ∧
    (resetCamera s).maxDist = s.maxDist ∧
    (resetCamera s).epsilon = s.epsilon ∧
    (resetCamera s).enableAO = s.enableAO ∧
    (resetCamera s).enableShadows = s.enableShadows ∧
    (resetCamera s).colorA = s.colorA ∧
    (resetCamera s).colorB = s.colorB :=
  ⟨rfl, rfl, rfl, rfl, rfl, rfl, rfl, rfl, rfl, rfl, rfl, rfl, rfl, rfl, rfl, rfl⟩

/-- C4: with `autoRotate` set, the yaw after a frame at wall-clock time `t`
equals `t * rotationSpeed`, no matter how many frames (at times `ts`) ran
in between — auto-rotation is a pure function of elapsed time, not an
accumulating integrator. -/
theorem auto_rotation_pure_function_of_time
    (s : RenderSettings) (ts : List ℚ) (t : ℚ) (h : s.autoRotate = true) :
    (frameAdvance t (ts.foldl (fun cur t0 => frameAdvance t0 cur) s)).camYaw
      = t * s.rotationSpeed := by
  have ha : (ts.foldl (fun cur t0 => frameAdvance t0 cur) s).autoRotate = true := by
    rw [foldl_frameAdvance_autoRotate, h]
  rw [frameAdvance, if_pos ha, foldl_frameAdvance_rotationSpeed]

/-- C4 witness: after three intermediate frames at times 1, 2, 3, the frame
at time 10 leaves yaw `10 * 0.2 = 2`. -/
theorem auto_rotation_pure_function_of_time_witness :
    (frameAdvance 10 (([1, 2, 3] : List ℚ).foldl
        (fun cur t0 => frameAdvance t0 cur) defaultSettings)).camYaw
      = 10 * defaultSettings.rotationSpeed :=
  auto_rotation_pure_function_of_time defaultSettings [1, 2, 3] 10 rfl

/-- C7: the per-frame defensive clamp is idempotent — clamping twice equals
clamping once — and the per-frame camera computation consumes exactly the
clamped settings: pre-clamping changes nothing about the produced camera. -/
theorem clamp_pair_idempotent (s : RenderSettings) :
    clampFrame (clampFrame s) = clampFrame s ∧
    settingsCamera (clampFrame s) = settingsCamera s := by
  refine ⟨clampFrame_idem s, ?_⟩
  unfold settingsCamera
  rw [clampFrame_idem]

/-- C1: for any positive distance and any yaw/pitch away from the vertical
poles (`cos pitch ≠ 0`), the per-frame basis is three mutually
perpendicular unit vectors whose cross products cycle consistently
(`right × forward = up`, `forward × up = right`, `up × right = forward`,
a handed frame); at a pole (`cos pitch = 0`) the computation still returns
the defined degenerate result `forward = (0, -sin pitch, 0)`,
`right = up = (0,0,0)` instead of failing. -/
theorem camera_basis_orthonormal_except_poles (d yaw pitch : ℝ) (hd : 0 < d) :
    (Real.cos pitch ≠ 0 →
      vlen (forwardV d yaw pitch) = 1 ∧ vlen (rightV d yaw pitch) = 1 ∧
      vlen (upV d yaw pitch) = 1 ∧
      dot (forwardV d yaw pitch) (rightV d yaw pitch) = 0 ∧
      dot (forwardV d yaw pitch) (upV d yaw pitch) = 0 ∧
      dot (rightV d yaw pitch) (upV d yaw pitch) = 0 ∧
      cross (rightV d yaw pitch) (forwardV d yaw pitch) = upV d yaw pitch ∧
      cross (forwardV d yaw pitch) (upV d yaw pitch) = rightV d yaw pitch ∧
      cross (upV d yaw pitch) (rightV d yaw pitch) = forwardV d yaw pitch) ∧
    (Real.cos pitch = 0 →
      forwardV d yaw pitch = ⟨0, -(Real.sin pitch), 0⟩ ∧
      rightV d yaw pitch = ⟨0, 0, 0⟩ ∧ upV d yaw pitch = ⟨0, 0, 0⟩) := by
  constructor
  · intro hcp
    exact ⟨len_forwardV d yaw pitch hd, len_rightV d yaw pitch hd hcp,
      len_upV d yaw pitch hd hcp, dot_forwardV_rightV d yaw pitch hd hcp,
      dot_forwardV_upV d yaw pitch hd hcp, dot_rightV_upV d yaw pitch hd hcp,
      cross_rightV_forwardV d yaw pitch, cross_forwardV_upV d yaw pitch hd hcp,
      cross_upV_rightV d yaw pitch hd hcp⟩
  · intro hcp
    exact ⟨forwardV_pole d yaw pitch hd hcp, rightV_pole d yaw pitch hd hcp,
      upV_pole d yaw pitch hd hcp⟩

/-- C1 witness: at distance 4, yaw 0, pitch 0 the forward and right vectors
are unit length. -/
theorem camera_basis_orthonormal_except_poles_witness :
    vlen (forwardV 4 0 0) = 1 ∧ vlen (rightV 4 0 0) = 1 :=
  ⟨((camera_basis_orthonormal_except_poles 4 0 0 (by norm_num)).1
      (by rw [Real.cos_zero]; norm_num)).1,
   ((camera_basis_orthonormal_except_poles 4 0 0 (by norm_num)).1
      (by rw [Real.cos_zero]; norm_num)).2.1⟩

/-- C5: `normalize_vec3` maps any vector whose length is (at most) zero to
the zero vector instead of dividing by zero, and consequently it does not
guarantee a unit-length result for every input. -/
theorem normalize_zero_vector_tolerated :
    (∀ v : Vec3, vlen v ≤ 0 → normalize_vec3 v = ⟨0, 0, 0⟩) ∧
    ¬ (∀ v : Vec3, vlen (normalize_vec3 v) = 1) := by
  constructor
  · intro v hv
    unfold normalize_vec3
    rw [if_pos hv]
  · intro h
    have h0 := h ⟨0, 0, 0⟩
    rw [normalize_vec3_zero, vlen_zero_vec] at h0
    exact zero_ne_one h0

/-- C6: for every yaw, pitch and clamped distance, `camPos` is the
spherical-to-Cartesian point
`(d·cos p·cos y, d·sin p, d·cos p·sin y)` and lies on the sphere of radius
`d` around the origin. -/
theorem camPos_on_sphere (d yaw pitch : ℝ) (hd : 0.5 ≤ d) :
    camPos d yaw pitch =
      ⟨d * Real.cos pitch * Real.cos yaw, d * Real.sin pitch,
       d * Real.cos pitch * Real.sin yaw⟩ ∧
    vlen (camPos d yaw pitch) = d := by
  refine ⟨rfl, ?_⟩
  apply vlen_eq_of_sq _ _ (le_trans (by norm_num) hd)
  dsimp [camPos]
  have h1 := Real.sin_sq_add_cos_sq pitch
  have h2 := Real.sin_sq_add_cos_sq yaw
  linear_combination d * d * Real.cos pitch ^ 2 * h2 + d * d * h1

/-- C6 witness: at distance 4 the default-yaw/pitch-zero position has
norm 4. -/
theorem camPos_on_sphere_witness : vlen (camPos 4 0 0) = 4 :=
  (camPos_on_sphere 4 0 0 (by norm_num)).2

/-- C8: the end-to-end scenario camDistance=4, camYaw=0, camPitch=0 yields
position (4,0,0), forward (-1,0,0), right (0,0,-1) (the code's
`forward × worldUp` handedness), and up (0,1,0). -/
theorem default_front_view_scenario :
    camPos 4 0 0 = ⟨4, 0, 0⟩ ∧
    forwardV 4 0 0 = ⟨-1, 0, 0⟩ ∧
    rightV 4 0 0 = ⟨0, 0, -1⟩ ∧
    upV 4 0 0 = ⟨0, 1, 0⟩ := by
  have h1 : Real.cos (0 : ℝ) = 1 := Real.cos_zero
  have h0 : Real.sin (0 : ℝ) = 0 := Real.sin_zero
  have hd : (0 : ℝ) < 4 := by norm_num
  have hcp : Real.cos (0 : ℝ) ≠ 0 := by rw [h1]; norm_num
  refine ⟨?_, ?_, ?_, ?_⟩
  · unfold camPos
    rw [h1, h0]
    ext <;> dsimp <;> norm_num
  · rw [forwardV_eq 4 0 0 hd, h1, h0]
    ext <;> dsimp <;> norm_num
  · rw [rightV_eq 4 0 0 hd hcp, h1, h0]
    ext <;> dsimp <;> norm_num [abs_one]
  · rw [upV_eq 4 0 0 hd hcp, h1, h0]
    ext <;> dsimp <;> norm_num [abs_one]

/-- C9: for every yaw, every pitch in the clamped range [-1.5, 1.5] and
every distance ≥ 0.5, the forward vector is never parallel to
`worldUp = (0,1,0)` (its x and z components are not both zero), the cross
product `forward × worldUp` is nonzero, the zero-vector branch of
`normalize_vec3` is not taken for the right vector, and the resulting
basis is orthonormal. -/
theorem clamped_range_never_degenerate (d yaw pitch : ℝ)
    (hp1 : -1.5 ≤ pitch) (hp2 : pitch ≤ 1.5) (hd : 0.5 ≤ d) :
    ¬ ((forwardV d yaw pitch).x = 0 ∧ (forwardV d yaw pitch).z = 0) ∧
    cross (forwardV d yaw pitch) worldUp ≠ ⟨0, 0, 0⟩ ∧
    ¬ vlen (cross (forwardV d yaw pitch) worldUp) ≤ 0 ∧
    vlen (forwardV d yaw pitch) = 1 ∧ vlen (rightV d yaw pitch) = 1 ∧
    vlen (upV d yaw pitch) = 1 ∧
    dot (forwardV d yaw pitch) (rightV d yaw pitch) = 0 ∧
    dot (forwardV d yaw pitch) (upV d yaw pitch) = 0 ∧
    dot (rightV d yaw pitch) (upV d yaw pitch) = 0 := by
  have hd0 : (0 : ℝ) < d := lt_of_lt_of_le (by norm_num) hd
  have hpi := Real.pi_gt_three
  have hcp_pos : 0 < Real.cos pitch :=
    Real.cos_pos_of_mem_Ioo (Set.mem_Ioo.mpr ⟨by linarith, by linarith⟩)
  have hcp : Real.cos pitch ≠ 0 := ne_of_gt hcp_pos
  refine ⟨?_, ?_, ?_, len_forwardV d yaw pitch hd0,
    len_rightV d yaw pitch hd0 hcp, len_upV d yaw pitch hd0 hcp,
    dot_forwardV_rightV d yaw pitch hd0 hcp,
    dot_forwardV_upV d yaw pitch hd0 hcp,
    dot_rightV_upV d yaw pitch hd0 hcp⟩
  · rintro ⟨hx, hz⟩
    rw [forwardV_eq d yaw pitch hd0] at hx hz
    dsimp at hx hz
    have hcy : Real.cos yaw = 0 := by
      rcases mul_eq_zero.mp (neg_eq_zero.mp hx) with h | h
      · exact absurd h hcp
      · exact h
    have hsy : Real.sin yaw = 0 := by
      rcases mul_eq_zero.mp (neg_eq_zero.mp hz) with h | h
      · exact absurd h hcp
      · exact h
    have hone := Real.sin_sq_add_cos_sq yaw
    rw [hcy, hsy] at hone
    norm_num at hone
  · intro hcross
    have hlen := len_cross_forwardV_worldUp d yaw pitch hd0
    rw [hcross, vlen_zero_vec] at hlen
    exact hcp (abs_eq_zero.mp hlen.symm)
  · rw [len_cross_forwardV_worldUp d yaw pitch hd0]
    exact not_le.mpr (abs_pos.mpr hcp)

/-- C9 witness: at distance 4, yaw 0, pitch 0 the up vector is unit
length. -/
theorem clamped_range_never_degenerate_witness : vlen (upV 4 0 0) = 1 :=
  (clamped_range_never_degenerate 4 0 0 (by norm_num) (by norm_num)
    (by norm_num)).2.2.2.2.2.1

/-- C10: the per-frame camera computation is a pure function of
`camDistance`, `camYaw` and `camPitch`: two settings records that agree on
those three fields produce identical position, forward, right and up
vectors, whatever their other fields hold. -/
theorem camera_reads_only_camera_fields (s1 s2 : RenderSettings)
    (h1 : s1.camDistance = s2.camDistance) (h2 : s1.camYaw = s2.camYaw)
    (h3 : s1.camPitch = s2.camPitch) :
    settingsCamera s1 = settingsCamera s2 := by
  unfold settingsCamera clampFrame
  dsimp
  rw [h1, h2, h3]

/-- C10 witness: changing only `power` and `enableAO` leaves the camera
output unchanged. -/
theorem camera_reads_only_camera_fields_witness :
    settingsCamera defaultSettings =
      settingsCamera { defaultSettings with power := 3, enableAO := false } :=
  camera_reads_only_camera_fields _ _ rfl rfl rfl

end Fractalos

